import Mathlib

/-!
Shallow embedding of `plugins/filters/services/services.go` from the
signalfx-agent (neo-agent) repository: a rule-based classifier that maps
discovered service instances to a service type using declarative rule files.

Go slices mutated in place are modelled by explicit state passing: `Map`
returns the final state of its input slice alongside its result.  A Go
`(T, error)` return is modelled as `Except GoError T`; a Go runtime panic
(the unconditional `si.Container.Names[0]` index) is modelled as the `none`
case of an outer `Option`.
-/

set_option autoImplicit false

namespace ServicesFilter

/-- Go errors carry only a message here. -/
abbrev GoError := String

/-- A Go `map[string]interface{}` whose values are all strings in this code,
modelled as an association list where the most recent insertion is consed at
the front (so lookup of the first occurrence is last-write-wins). -/
abbrev AttrMap := List (String × String)

/-- `sm[key] = val` on a Go map: the new binding shadows any older one. -/
def goMapSet (m : AttrMap) (key val : String) : AttrMap :=
  (key, val) :: m

/-- Reading a Go map: the most recent binding for the key, if any. -/
def goMapGet (m : AttrMap) (key : String) : Option String :=
  m.lookup key

/-- One element of `DiscoveryRuleset.Rules` (an anonymous struct in the Go
source): `Comparator`, `Path`, `Value`.  `Value` is `interface{}` in Go; the
classifier never inspects it, so it is kept as an opaque JSON-ish scalar. -/
inductive RuleValue where
  | str (s : String)
  | num (n : Int)
  | boolean (b : Bool)
  | null
deriving DecidableEq, Repr

/-- One atomic discovery rule (`Comparator`/`Path`/`Value` struct). -/
structure DiscoveryRule where
  Comparator : String
  Path : String
  Value : RuleValue
deriving DecidableEq, Repr

/-- `DiscoveryRuleset` names a set of service discovery rules. -/
structure DiscoveryRuleset where
  Name : String
  «Type» : String
  Rules : List DiscoveryRule
deriving DecidableEq, Repr

/-- `DiscoverySignatures`: one loaded rule source with its rulesets. -/
structure DiscoverySignatures where
  Name : String
  Signatures : List DiscoveryRuleset
deriving DecidableEq, Repr

/-- Modelled from the spec: the entity-level part of the external
`services.Instance` type (its declaration lives outside `src/`; only the
fields this plugin reads are modelled): identity id, configured names,
image/origin, pod, command, lifecycle state, and the entity-level label
collection.  A Go `map[string]string` is modelled as an association list. -/
structure Container where
  ID : String
  Names : List String
  Image : String
  Pod : String
  Command : String
  State : String
  Labels : List (String × String)
deriving DecidableEq, Repr

/-- Modelled from the spec: the network-endpoint sub-record of the external
`services.Instance` type: address, endpoint kind, public/private port numbers
(unsigned in Go, modelled as `Nat`), and the endpoint-level label
collection. -/
structure Port where
  IP : String
  «Type» : String
  PublicPort : Nat
  PrivatePort : Nat
  Labels : List (String × String)
deriving DecidableEq, Repr

/-- Modelled from the spec: the classification result slot of the external
`services.Instance` type; `services.ServiceType` is a string type. -/
structure Service where
  «Type» : String
deriving DecidableEq, Repr

/-- Modelled from the spec: the external `services.Instance` entity consumed
(not owned) by this plugin. -/
structure Instance where
  Service : Service
  Container : Container
  Port : Port
deriving DecidableEq, Repr

/-- The write `sis[i].Service.«Type» = services.ServiceType(ruleset.«Type»)`. -/
def setType (si : Instance) (t : String) : Instance :=
  { si with Service := { si.Service with «Type» := t } }

/-- The ruler engine produced by `ruler.NewRulerWithJson`: a black box whose
`Test` takes the flat attribute map and returns a boolean (no error path). -/
structure RulerEngine where
  Test : AttrMap → Bool

/-- The two fallible external calls made by `matches`: `json.Marshal` on the
rule list and `ruler.NewRulerWithJson` on the marshalled bytes.  Both are
black boxes to this core, so they are parameters of the development. -/
structure Evaluator where
  marshalRules : List DiscoveryRule → Except GoError String
  newRulerWithJson : String → Except GoError RulerEngine

/-- The attribute map `sm` built inside `matches` (lines 99–118 of
`services.go`): ten fixed keys from the map literal, then one
`ContainerLabel-`-prefixed key per entity-level label, then one
`NetworkLabel-`-prefixed key per endpoint-level label.  The unconditional
`si.Container.Names[0]` access is modelled by `Names[0]?`: the result is
`none` (a Go panic) exactly when the name list is empty. -/
def attributeMap (si : Instance) : Option AttrMap := do
  let name0 ← si.Container.Names[0]?
  let sm : AttrMap :=
    [("ContainerID", si.Container.ID),
     ("ContainerName", name0),
     ("ContainerImage", si.Container.Image),
     ("ContainerPod", si.Container.Pod),
     ("ContainerCommand", si.Container.Command),
     ("ContainerState", si.Container.State),
     ("NetworkIP", si.Port.IP),
     ("NetworkType", si.Port.«Type»),
     ("NetworkPublicPort", Nat.repr si.Port.PublicPort),
     ("NetworkPrivatePort", Nat.repr si.Port.PrivatePort)]
  let sm := si.Container.Labels.foldl
    (fun m p => goMapSet m ("ContainerLabel-" ++ p.1) p.2) sm
  let sm := si.Port.Labels.foldl
    (fun m p => goMapSet m ("NetworkLabel-" ++ p.1) p.2) sm
  pure sm

/-- `matches`: marshal the ruleset's rules, build the ruler engine, project
the instance's attributes and test them.  The outer `Option` is `none` when
projection panics (empty name list); the `Except` carries the Go error
returned when marshalling or engine construction fails. -/
def «matches» (ev : Evaluator) (si : Instance) (ruleset : DiscoveryRuleset) :
    Option (Except GoError Bool) :=
  match ev.marshalRules ruleset.Rules with
  | .error err => some (.error err)
  | .ok jsonRules =>
    match ev.newRulerWithJson jsonRules with
    | .error err => some (.error err)
    | .ok engine =>
      match attributeMap si with
      | none => none
      | some sm => some (.ok (engine.Test sm))

/-- The two inner loops of `Map` over one instance, innermost first: walk the
rulesets of one signature in declared order; stop at the first error or the
first match. -/
def matchRulesets (ev : Evaluator) (si : Instance) :
    List DiscoveryRuleset → Option (Except GoError (Option DiscoveryRuleset))
  | [] => some (.ok none)
  | rs :: rest =>
    match «matches» ev si rs with
    | none => none
    | some (.error e) => some (.error e)
    | some (.ok true) => some (.ok (some rs))
    | some (.ok false) => matchRulesets ev si rest

/-- Walk the loaded signature sources in configured order, each source's
rulesets in declared order; stop at the first error or the first match. -/
def matchSignatures (ev : Evaluator) (si : Instance) :
    List DiscoverySignatures → Option (Except GoError (Option DiscoveryRuleset))
  | [] => some (.ok none)
  | sig :: rest =>
    match matchRulesets ev si sig.Signatures with
    | some (.ok none) => matchSignatures ev si rest
    | r => r

/-- `RuleFilter` holds the loaded rule sources (the embedded `plugins.Plugin`
carries only name/config, which `Map` never reads). -/
structure RuleFilter where
  serviceRules : List DiscoverySignatures
deriving Repr

/-- All rulesets of a filter in priority order: sources in configured load
order, rulesets within a source in declared order. -/
def flatRules (filter : RuleFilter) : List DiscoveryRuleset :=
  (filter.serviceRules.map DiscoverySignatures.Signatures).flatten

/-- The `OUTER` loop of `Map` with the input slice made explicit: the result
pairs the final state of the input slice `sis` (Go mutates `sis[i]` in
place) with the returned `(applicableServices, error)`.  On a match the
element is updated in the slice and the updated element appended to the
output; on an error `Map` returns `nil, err`, so the `Except` carries no
partial output, while the slice keeps all mutations made so far. -/
def mapLoop (ev : Evaluator) (rules : List DiscoverySignatures) :
    List Instance → Option (List Instance × Except GoError (List Instance))
  | [] => some ([], .ok [])
  | si :: rest =>
    match matchSignatures ev si rules with
    | none => none
    | some (.error e) => some (si :: rest, .error e)
    | some (.ok none) =>
      match mapLoop ev rules rest with
      | none => none
      | some (rest', res) => some (si :: rest', res)
    | some (.ok (some rs)) =>
      let si' := setType si rs.«Type»
      match mapLoop ev rules rest with
      | none => none
      | some (rest', .ok out) => some (si' :: rest', .ok (si' :: out))
      | some (rest', .error e) => some (si' :: rest', .error e)

/-- `RuleFilter.Map` (lines 124–150 of `services.go`). -/
def RuleFilter.Map (filter : RuleFilter) (ev : Evaluator) (sis : List Instance) :
    Option (List Instance × Except GoError (List Instance)) :=
  mapLoop ev filter.serviceRules sis

/-- The per-element effect of `Map` on the input slice: a matched element
gets its `Service.«Type»` overwritten, anything else is left alone. -/
def classifyElem (ev : Evaluator) (rules : List DiscoverySignatures)
    (si : Instance) : Instance :=
  match matchSignatures ev si rules with
  | some (.ok (some rs)) => setType si rs.«Type»
  | _ => si

/-- The per-element contribution of `Map` to its output. -/
def pickElem (ev : Evaluator) (rules : List DiscoverySignatures)
    (si : Instance) : Option Instance :=
  match matchSignatures ev si rules with
  | some (.ok (some rs)) => some (setType si rs.«Type»)
  | _ => none

/-- The environment `NewRuleFilter` runs in: the outcome of
`plugins.NewPlugin`, the `servicesfiles` configuration list, the file system
read and the JSON decode into `DiscoverySignatures` — all external calls. -/
structure PluginHost where
  newPlugin : Except GoError Unit
  servicesFiles : List String
  readFile : String → Except GoError String
  unmarshalSignatures : String → Except GoError DiscoverySignatures

/-- `loadServiceSignatures`: read the file, decode it.  (The Go version also
returns a pointer to the zero value alongside a non-nil error; the caller
only uses it when the error is nil, so `Except` is faithful.) -/
def loadServiceSignatures (env : PluginHost) (servicesFile : String) :
    Except GoError DiscoverySignatures :=
  match env.readFile servicesFile with
  | .error e => .error e
  | .ok jsonContent =>
    match env.unmarshalSignatures jsonContent with
    | .error e => .error e
    | .ok signatures => .ok signatures

/-- The loading loop of `NewRuleFilter`: load each configured file in order,
aborting at the first failure. -/
def loadAll (env : PluginHost) :
    List String → Except GoError (List DiscoverySignatures)
  | [] => .ok []
  | f :: fs =>
    match loadServiceSignatures env f with
    | .error e => .error e
    | .ok loaded =>
      match loadAll env fs with
      | .error e => .error e
      | .ok rest => .ok (loaded :: rest)

/-- `NewRuleFilter` (lines 45–71 of `services.go`). -/
def NewRuleFilter (env : PluginHost) : Except GoError RuleFilter :=
  match env.newPlugin with
  | .error e => .error e
  | .ok _ =>
    if env.servicesFiles.length = 0 then
      .error "servicesFiles configuration value missing"
    else
      match loadAll env env.servicesFiles with
      | .error e => .error e
      | .ok signatures => .ok { serviceRules := signatures }

/-! ### Concrete sample data

A small evaluator and rule store used to exercise the theorems on concrete
inputs.  The sample engine tests the `ContainerImage` attribute against
`redis:6` (the scenario of the spec); the sample marshaller rejects an empty
rule list, standing for a `json.Marshal`/`ruler.NewRulerWithJson` failure. -/

/-- An engine matching entities whose image attribute is `redis:6`. -/
def redisEngine : RulerEngine :=
  ⟨fun m => goMapGet m "ContainerImage" == some "redis:6"⟩

/-- Marshalling fails on an empty rule list, succeeds otherwise; the engine
always builds. -/
def sampleEvaluator : Evaluator :=
  ⟨fun rules => if rules = [] then .error "cannot marshal" else .ok "compiled",
   fun _ => .ok redisEngine⟩

def sampleRule : DiscoveryRule := ⟨"equals", "ContainerImage", .str "redis:6"⟩

def rulesetRedis : DiscoveryRuleset := ⟨"redis", "redis", [sampleRule]⟩

/-- A ruleset whose rule list the sample marshaller rejects. -/
def rulesetBad : DiscoveryRuleset := ⟨"bad", "bad", []⟩

def rulesetA : DiscoveryRuleset := ⟨"sigA", "A", [sampleRule]⟩

def rulesetB : DiscoveryRuleset := ⟨"sigB", "B", [sampleRule]⟩

/-- Two sources loaded in order, both matching a `redis:6` entity, with
types `A` and `B` respectively (the spec's priority scenario). -/
def filterAB : RuleFilter := ⟨[⟨"fileA", [rulesetA]⟩, ⟨"fileB", [rulesetB]⟩]⟩

/-- One source whose second ruleset fails to compile. -/
def filterWithBad : RuleFilter := ⟨[⟨"fileA", [rulesetRedis, rulesetBad]⟩]⟩

def filterRedis : RuleFilter := ⟨[⟨"fileA", [rulesetRedis]⟩]⟩

def entRedis : Instance :=
  ⟨⟨""⟩, ⟨"id0", ["name0"], "redis:6", "pod0", "cmd0", "running", []⟩,
   ⟨"10.0.0.1", "tcp", 80, 6379, []⟩⟩

def entPostgres : Instance :=
  ⟨⟨""⟩, ⟨"id1", ["name1"], "postgres:13", "pod1", "cmd1", "running", []⟩,
   ⟨"10.0.0.2", "tcp", 81, 5432, []⟩⟩

/-- An entity carrying the same label key at entity level and endpoint
level, with different values. -/
def entLabelled : Instance :=
  ⟨⟨""⟩, ⟨"id2", ["name2"], "redis:6", "pod2", "cmd2", "running",
    [("app", "backend")]⟩,
   ⟨"10.0.0.3", "tcp", 82, 6379, [("app", "edge")]⟩⟩

/-- An entity with an empty name list (the projection's undefined case). -/
def entNoName : Instance :=
  ⟨⟨""⟩, ⟨"id3", [], "img", "pod3", "cmd3", "exited", []⟩,
   ⟨"10.0.0.4", "tcp", 0, 0, []⟩⟩

/-- The attribute map projected from `entLabelled`. -/
def mLabelled : AttrMap :=
  [("NetworkLabel-app", "edge"),
   ("ContainerLabel-app", "backend"),
   ("ContainerID", "id2"),
   ("ContainerName", "name2"),
   ("ContainerImage", "redis:6"),
   ("ContainerPod", "pod2"),
   ("ContainerCommand", "cmd2"),
   ("ContainerState", "running"),
   ("NetworkIP", "10.0.0.3"),
   ("NetworkType", "tcp"),
   ("NetworkPublicPort", "82"),
   ("NetworkPrivatePort", "6379")]

/-- The nine fixed attribute keys the spec lists for the projection. -/
def specFixedKeys : List String :=
  ["ContainerID", "ContainerName", "ContainerImage", "ContainerCommand",
   "ContainerState", "NetworkIP", "NetworkType", "NetworkPublicPort",
   "NetworkPrivatePort"]

/-- A host whose single configured source loads fine. -/
def goodHost : PluginHost :=
  ⟨.ok (), ["a.json"], fun _ => .ok "content",
   fun _ => .ok ⟨"fileA", [rulesetRedis]⟩⟩

/-- A host with an empty `servicesfiles` configuration list. -/
def emptyHost : PluginHost :=
  ⟨.ok (), [], fun _ => .ok "content", fun _ => .ok ⟨"fileA", [rulesetRedis]⟩⟩

/-- A host whose single configured source cannot be read. -/
def badHost : PluginHost :=
  ⟨.ok (), ["a.json"], fun _ => .error "no such file",
   fun _ => .ok ⟨"fileA", [rulesetRedis]⟩⟩

end ServicesFilter

namespace ServicesFilter

/-! ### Lemmas about the ruleset walk -/

theorem matchRulesets_append (ev : Evaluator) (si : Instance)
    (l1 l2 : List DiscoveryRuleset) :
    matchRulesets ev si (l1 ++ l2) =
      match matchRulesets ev si l1 with
      | some (.ok none) => matchRulesets ev si l2
      | r => r := by
  induction l1 with
  | nil => simp [matchRulesets]
  | cons rs rest ih =>
    simp only [List.cons_append, matchRulesets]
    cases «matches» ev si rs with
    | none => rfl
    | some r =>
      cases r with
      | error e => rfl
      | ok b => cases b <;> simp [ih]

/-- The two nested inner loops of `Map` walk exactly the flattened priority
order: sources in configured order, rulesets in declared order. -/
theorem matchSignatures_eq_flat (ev : Evaluator) (si : Instance)
    (sigs : List DiscoverySignatures) :
    matchSignatures ev si sigs =
      matchRulesets ev si (sigs.map DiscoverySignatures.Signatures).flatten := by
  induction sigs with
  | nil => rfl
  | cons sig rest ih =>
    simp only [List.map_cons, List.flatten_cons, matchSignatures,
      matchRulesets_append, ih]

theorem matchRulesets_all_false (ev : Evaluator) (si : Instance)
    (l : List DiscoveryRuleset)
    (h : ∀ r ∈ l, «matches» ev si r = some (.ok false)) :
    matchRulesets ev si l = some (.ok none) := by
  induction l with
  | nil => rfl
  | cons rs rest ih =>
    have hrs := h rs (List.mem_cons_self rs rest)
    simp only [matchRulesets, hrs]
    exact ih fun r hr => h r (List.mem_cons_of_mem rs hr)

theorem matchRulesets_first_match (ev : Evaluator) (si : Instance)
    (pre post : List DiscoveryRuleset) (rs : DiscoveryRuleset)
    (hpre : ∀ r ∈ pre, «matches» ev si r = some (.ok false))
    (hrs : «matches» ev si rs = some (.ok true)) :
    matchRulesets ev si (pre ++ rs :: post) = some (.ok (some rs)) := by
  induction pre with
  | nil => simp [matchRulesets, hrs]
  | cons p rest ih =>
    have hp := hpre p (List.mem_cons_self p rest)
    simp only [List.cons_append, matchRulesets, hp]
    exact ih fun r hr => hpre r (List.mem_cons_of_mem p hr)

theorem matchRulesets_first_error (ev : Evaluator) (si : Instance)
    (pre post : List DiscoveryRuleset) (rs : DiscoveryRuleset) (e : GoError)
    (hpre : ∀ r ∈ pre, «matches» ev si r = some (.ok false))
    (hrs : «matches» ev si rs = some (.error e)) :
    matchRulesets ev si (pre ++ rs :: post) = some (.error e) := by
  induction pre with
  | nil => simp [matchRulesets, hrs]
  | cons p rest ih =>
    have hp := hpre p (List.mem_cons_self p rest)
    simp only [List.cons_append, matchRulesets, hp]
    exact ih fun r hr => hpre r (List.mem_cons_of_mem p hr)

/-! ### Lemmas about the outer loop of `Map` -/

/-- When `Map` succeeds, the final state of the input slice is the
element-wise update and the output is the element-wise selection, in input
order. -/
theorem mapLoop_ok_spec (ev : Evaluator) (rules : List DiscoverySignatures) :
    ∀ (sis sis' out : List Instance),
      mapLoop ev rules sis = some (sis', .ok out) →
      sis' = sis.map (classifyElem ev rules) ∧
        out = sis.filterMap (pickElem ev rules)
  | [], sis', out, h => by
    simp only [mapLoop, Option.some.injEq, Prod.mk.injEq] at h
    obtain ⟨h1, h2⟩ := h
    simp [← h1, Except.ok.injEq] at h2 ⊢
    exact h2
  | si :: rest, sis', out, h => by
    rw [mapLoop] at h
    cases h1 : matchSignatures ev si rules with
    | none => rw [h1] at h; exact absurd h (by simp)
    | some r =>
      rw [h1] at h
      cases r with
      | error e => simp at h
      | ok o =>
        cases o with
        | none =>
          cases h2 : mapLoop ev rules rest with
          | none => rw [h2] at h; exact absurd h (by simp)
          | some p =>
            obtain ⟨rest', res⟩ := p
            rw [h2] at h
            simp only [Option.some.injEq, Prod.mk.injEq] at h
            obtain ⟨ha, hb⟩ := h
            obtain ⟨ih1, ih2⟩ := mapLoop_ok_spec ev rules rest rest' out
              (by rw [h2, hb])
            subst ha
            simp [classifyElem, pickElem, h1, ih1, ih2]
        | some rs =>
          cases h2 : mapLoop ev rules rest with
          | none => rw [h2] at h; exact absurd h (by simp)
          | some p =>
            obtain ⟨rest', res⟩ := p
            rw [h2] at h
            cases res with
            | error e => simp at h
            | ok out0 =>
              simp only [Option.some.injEq, Prod.mk.injEq,
                Except.ok.injEq] at h
              obtain ⟨ha, hb⟩ := h
              obtain ⟨ih1, ih2⟩ := mapLoop_ok_spec ev rules rest rest' out0
                (by rw [h2])
              subst ha hb
              simp [classifyElem, pickElem, h1, ih1, ih2]

/-- An evaluation error at entity `si` aborts the call: entities before `si`
keep the state they reached (`pre'`), `si` and everything after it keep
their original state, and the error is returned with no output. -/
theorem mapLoop_append_error (ev : Evaluator) (rules : List DiscoverySignatures) :
    ∀ (pre pre' out : List Instance) (si : Instance) (rest : List Instance)
      (e : GoError),
      mapLoop ev rules pre = some (pre', .ok out) →
      matchSignatures ev si rules = some (.error e) →
      mapLoop ev rules (pre ++ si :: rest) =
        some (pre' ++ si :: rest, .error e)
  | [], pre', out, si, rest, e, hpre, herr => by
    simp only [mapLoop, Option.some.injEq, Prod.mk.injEq] at hpre
    obtain ⟨h1, _⟩ := hpre
    simp [← h1, mapLoop, herr]
  | p :: pre1, pre', out, si, rest, e, hpre, herr => by
    rw [mapLoop] at hpre
    cases h1 : matchSignatures ev p rules with
    | none => rw [h1] at hpre; exact absurd hpre (by simp)
    | some r =>
      rw [h1] at hpre
      cases r with
      | error e2 => simp at hpre
      | ok o =>
        cases o with
        | none =>
          cases h2 : mapLoop ev rules pre1 with
          | none => rw [h2] at hpre; exact absurd hpre (by simp)
          | some q =>
            obtain ⟨pre1', res⟩ := q
            rw [h2] at hpre
            simp only [Option.some.injEq, Prod.mk.injEq] at hpre
            obtain ⟨ha, hb⟩ := hpre
            have ih := mapLoop_append_error ev rules pre1 pre1' out si rest e
              (by rw [h2, hb]) herr
            simp [List.cons_append, mapLoop, h1, ih, ← ha]
        | some rs =>
          cases h2 : mapLoop ev rules pre1 with
          | none => rw [h2] at hpre; exact absurd hpre (by simp)
          | some q =>
            obtain ⟨pre1', res⟩ := q
            rw [h2] at hpre
            cases res with
            | error e2 => simp at hpre
            | ok out0 =>
              simp only [Option.some.injEq, Prod.mk.injEq] at hpre
              obtain ⟨ha, _⟩ := hpre
              have ih := mapLoop_append_error ev rules pre1 pre1' out0 si rest e
                (by rw [h2]) herr
              simp [List.cons_append, mapLoop, h1, ih, ← ha]

/-! ### The projection ignores the classification slot -/

theorem attributeMap_setType (si : Instance) (t : String) :
    attributeMap (setType si t) = attributeMap si := rfl

theorem matches_setType (ev : Evaluator) (si : Instance) (t : String)
    (rs : DiscoveryRuleset) :
    «matches» ev (setType si t) rs = «matches» ev si rs := rfl

theorem matchRulesets_setType (ev : Evaluator) (si : Instance) (t : String)
    (l : List DiscoveryRuleset) :
    matchRulesets ev (setType si t) l = matchRulesets ev si l := by
  induction l with
  | nil => rfl
  | cons rs rest ih => simp only [matchRulesets, matches_setType, ih]

theorem matchSignatures_setType (ev : Evaluator) (si : Instance) (t : String)
    (sigs : List DiscoverySignatures) :
    matchSignatures ev (setType si t) sigs = matchSignatures ev si sigs := by
  induction sigs with
  | nil => rfl
  | cons sig rest ih =>
    simp only [matchSignatures, matchRulesets_setType, ih]

/-! ### String and association-list lemmas for the attribute map -/

theorem string_append_right_inj (p a b : String) (h : p ++ a = p ++ b) :
    a = b := by
  have h2 := congrArg String.data h
  simp [String.data_append] at h2
  exact String.ext h2

theorem containerLabel_ne_networkLabel (a b : String) :
    "ContainerLabel-" ++ a ≠ "NetworkLabel-" ++ b := by
  intro h
  have h2 := congrArg String.data h
  simp [String.data_append] at h2

theorem lookup_append (l1 l2 : AttrMap) (k : String) :
    (l1 ++ l2).lookup k = ((l1.lookup k).orElse fun _ => l2.lookup k) := by
  induction l1 with
  | nil => simp [List.lookup]
  | cons p rest ih =>
    obtain ⟨k1, v1⟩ := p
    simp only [List.cons_append, List.lookup]
    cases k == k1 <;> simp [ih]

theorem lookup_eq_none_of_keys_ne (l : AttrMap) (K : String)
    (h : ∀ p ∈ l, p.1 ≠ K) : l.lookup K = none := by
  induction l with
  | nil => rfl
  | cons p rest ih =>
    obtain ⟨k1, v1⟩ := p
    have h1 : (K == k1) = false :=
      beq_eq_false_iff_ne.mpr (Ne.symm (h (k1, v1) (List.mem_cons_self _ _)))
    simp [List.lookup, h1]
    intro a b hab hKa
    exact h (a, b) (List.mem_cons_of_mem _ hab) hKa.symm

theorem lookup_map_prefixed (pre : String) (L : List (String × String))
    (k : String) :
    (L.map (fun p => (pre ++ p.1, p.2))).lookup (pre ++ k) = L.lookup k := by
  induction L with
  | nil => rfl
  | cons p rest ih =>
    obtain ⟨k1, v1⟩ := p
    by_cases hk : k1 = k
    · subst hk; simp [List.lookup]
    · have h1 : (pre ++ k == pre ++ k1) = false :=
        beq_eq_false_iff_ne.mpr fun h =>
          hk (string_append_right_inj pre k k1 h).symm
      have h2 : (k == k1) = false :=
        beq_eq_false_iff_ne.mpr fun h => hk h.symm
      simp [List.lookup, h1, h2, ih]

theorem foldl_goMapSet (pre : String) (L : List (String × String)) :
    ∀ m0 : AttrMap,
      L.foldl (fun m p => goMapSet m (pre ++ p.1) p.2) m0 =
        (L.map (fun p => (pre ++ p.1, p.2))).reverse ++ m0 := by
  induction L with
  | nil => intro m0; simp
  | cons p rest ih =>
    intro m0
    rw [List.foldl_cons, ih]
    simp [goMapSet, List.reverse_cons, List.append_assoc]

/-- The attribute map of an entity with at least one name, split into its
three layers: endpoint-label section on top, entity-label section below it,
fixed keys at the bottom (a later Go map write shadows an earlier one, and
lookups read top-down). -/
theorem attributeMap_eq (si : Instance) (n : String) (ns : List String)
    (hn : si.Container.Names = n :: ns) :
    attributeMap si = some (
      (si.Port.Labels.map (fun p => ("NetworkLabel-" ++ p.1, p.2))).reverse ++
      ((si.Container.Labels.map
          (fun p => ("ContainerLabel-" ++ p.1, p.2))).reverse ++
        [("ContainerID", si.Container.ID),
         ("ContainerName", n),
         ("ContainerImage", si.Container.Image),
         ("ContainerPod", si.Container.Pod),
         ("ContainerCommand", si.Container.Command),
         ("ContainerState", si.Container.State),
         ("NetworkIP", si.Port.IP),
         ("NetworkType", si.Port.«Type»),
         ("NetworkPublicPort", Nat.repr si.Port.PublicPort),
         ("NetworkPrivatePort", Nat.repr si.Port.PrivatePort)])) := by
  simp [attributeMap, hn, foldl_goMapSet]

theorem filterMap_pick_sublist (ev : Evaluator) (rules : List DiscoverySignatures) :
    ∀ sis : List Instance,
      (sis.filterMap (pickElem ev rules)).Sublist
        (sis.map (classifyElem ev rules))
  | [] => List.Sublist.slnil
  | si :: rest => by
    rw [List.map_cons]
    cases h1 : matchSignatures ev si rules with
    | none =>
      simp only [List.filterMap_cons, pickElem, classifyElem, h1]
      exact (filterMap_pick_sublist ev rules rest).cons _
    | some r =>
      cases r with
      | error e =>
        simp only [List.filterMap_cons, pickElem, classifyElem, h1]
        exact (filterMap_pick_sublist ev rules rest).cons _
      | ok o =>
        cases o with
        | none =>
          simp only [List.filterMap_cons, pickElem, classifyElem, h1]
          exact (filterMap_pick_sublist ev rules rest).cons _
        | some rs =>
          simp only [List.filterMap_cons, pickElem, classifyElem, h1]
          exact (filterMap_pick_sublist ev rules rest).cons₂ _

/-! ### Lemmas about construction -/

theorem loadAll_error_of_mem (env : PluginHost) :
    ∀ (fs : List String) (f : String) (e : GoError),
      f ∈ fs → loadServiceSignatures env f = .error e →
      ∃ e2, loadAll env fs = .error e2
  | f0 :: fs, f, e, hmem, herr => by
    rw [loadAll]
    cases h1 : loadServiceSignatures env f0 with
    | error e0 => exact ⟨e0, rfl⟩
    | ok sig =>
      rcases List.mem_cons.mp hmem with hf | hmem2
      · subst hf; rw [h1] at herr; cases herr
      · obtain ⟨e2, h2⟩ := loadAll_error_of_mem env fs f e hmem2 herr
        rw [h2]
        exact ⟨e2, rfl⟩

theorem loadAll_ok_forall (env : PluginHost) :
    ∀ (fs : List String) (sigs : List DiscoverySignatures),
      loadAll env fs = .ok sigs →
      List.Forall₂ (fun f sig => loadServiceSignatures env f = .ok sig) fs sigs
  | [], sigs, h => by
    simp only [loadAll, Except.ok.injEq] at h
    rw [← h]
    exact .nil
  | f :: fs, sigs, h => by
    rw [loadAll] at h
    cases h1 : loadServiceSignatures env f with
    | error e => rw [h1] at h; cases h
    | ok sig =>
      rw [h1] at h
      cases h2 : loadAll env fs with
      | error e => rw [h2] at h; cases h
      | ok rest =>
        rw [h2] at h
        simp only [Except.ok.injEq] at h
        rw [← h]
        exact .cons h1 (loadAll_ok_forall env fs rest h2)

/-! ### The claims -/

/-- C1: first-match-wins.  If, in the flattened priority order (sources in
configured load order, rulesets within a source in declared order), every
ruleset before `rs` fails to match entity `si` and `rs` matches, then the
classification of `si` picks `rs`, and `Map` assigns `rs`'s type to the
entity and adds it to the output — regardless of any later ruleset (in
particular, a later matching ruleset in `post` never wins). -/
theorem c1_first_match_wins (ev : Evaluator) (filter : RuleFilter)
    (si : Instance) (pre post : List DiscoveryRuleset) (rs : DiscoveryRuleset)
    (hsplit : flatRules filter = pre ++ rs :: post)
    (hpre : ∀ r ∈ pre, «matches» ev si r = some (.ok false))
    (hrs : «matches» ev si rs = some (.ok true)) :
    matchSignatures ev si filter.serviceRules = some (.ok (some rs)) ∧
    filter.Map ev [si] =
      some ([setType si rs.«Type»], .ok [setType si rs.«Type»]) := by
  have hflat : (filter.serviceRules.map DiscoverySignatures.Signatures).flatten
      = pre ++ rs :: post := hsplit
  have hms : matchSignatures ev si filter.serviceRules = some (.ok (some rs)) := by
    rw [matchSignatures_eq_flat, hflat]
    exact matchRulesets_first_match ev si pre post rs hpre hrs
  exact ⟨hms, by simp [RuleFilter.Map, mapLoop, hms]⟩

/-- Witness for C1: two sources `fileA`/`fileB` whose rulesets both match a
`redis:6` entity; the assigned type is `A`, the earlier source's type. -/
theorem c1_first_match_wins_witness :
    filterAB.Map sampleEvaluator [entRedis] =
      some ([setType entRedis "A"], .ok [setType entRedis "A"]) :=
  (c1_first_match_wins sampleEvaluator filterAB entRedis [] [rulesetB]
    rulesetA rfl (fun r hr => absurd hr (List.not_mem_nil r)) rfl).2

/-- C3: non-match is not an error.  If no ruleset in the loaded sources
matches `si`, classification of `si` yields no category and no error, and
`Map` simply leaves `si` out of the output: prepending `si` to any input
changes neither the result of the call nor its error/success status. -/
theorem c3_non_match_not_error (ev : Evaluator) (filter : RuleFilter)
    (si : Instance)
    (hall : ∀ r ∈ flatRules filter, «matches» ev si r = some (.ok false)) :
    matchSignatures ev si filter.serviceRules = some (.ok none) ∧
    (∀ rest rest' res, filter.Map ev rest = some (rest', res) →
      filter.Map ev (si :: rest) = some (si :: rest', res)) := by
  have hms : matchSignatures ev si filter.serviceRules = some (.ok none) := by
    rw [matchSignatures_eq_flat]
    exact matchRulesets_all_false ev si _ hall
  refine ⟨hms, fun rest rest' res h => ?_⟩
  simp only [RuleFilter.Map] at h
  simp [RuleFilter.Map, mapLoop, hms, h]

/-- Witness for C3: a `postgres:13` entity against the redis ruleset is
excluded from the output and the call succeeds. -/
theorem c3_non_match_not_error_witness :
    filterRedis.Map sampleEvaluator [entPostgres] =
      some ([entPostgres], .ok []) := by
  have h := c3_non_match_not_error sampleEvaluator filterRedis entPostgres
    (by
      intro r hr
      have hr2 : r = rulesetRedis := by
        simpa [flatRules, filterRedis] using hr
      subst hr2
      rfl)
  exact h.2 [] [] (.ok []) rfl

/-- C4: order preservation.  When `Map` succeeds, the final input slice is
the element-wise update of the input, the output is the element-wise
selection of the matched (and annotated) entities in input order, and the
output is a subsequence of the final input slice. -/
theorem c4_order_preservation (ev : Evaluator) (filter : RuleFilter)
    (sis sis' out : List Instance)
    (h : filter.Map ev sis = some (sis', .ok out)) :
    sis' = sis.map (classifyElem ev filter.serviceRules) ∧
    out = sis.filterMap (pickElem ev filter.serviceRules) ∧
    out.Sublist sis' := by
  obtain ⟨h1, h2⟩ := mapLoop_ok_spec ev filter.serviceRules sis sis' out h
  refine ⟨h1, h2, ?_⟩
  rw [h1, h2]
  exact filterMap_pick_sublist ev filter.serviceRules sis

/-- Witness for C4: a two-entity input where only the first matches; the
output is the annotated first entity, in input order. -/
theorem c4_order_preservation_witness :
    [setType entRedis "redis"] =
      [entRedis, entPostgres].filterMap
        (pickElem sampleEvaluator filterRedis.serviceRules) ∧
    List.Sublist [setType entRedis "redis"]
      [setType entRedis "redis", entPostgres] :=
  ⟨(c4_order_preservation sampleEvaluator filterRedis [entRedis, entPostgres]
      [setType entRedis "redis", entPostgres] [setType entRedis "redis"]
      rfl).2.1,
   (c4_order_preservation sampleEvaluator filterRedis [entRedis, entPostgres]
      [setType entRedis "redis", entPostgres] [setType entRedis "redis"]
      rfl).2.2⟩

/-- C2: fail-fast, all-or-nothing per call.  If, for entity `si`, every
ruleset before `rs` in priority order fails to match and evaluating `rs`
returns a Go error, then the classification of `si` surfaces that very
error (it is never treated as a non-match), and `Map` on any input
containing `si` after an error-free prefix returns that error with no
partial output (the `Except` is `error`, modelling Go's `nil, err`). -/
theorem c2_fail_fast (ev : Evaluator) (filter : RuleFilter) (si : Instance)
    (pre0 post : List DiscoveryRuleset) (rs : DiscoveryRuleset) (e : GoError)
    (hsplit : flatRules filter = pre0 ++ rs :: post)
    (hpre0 : ∀ r ∈ pre0, «matches» ev si r = some (.ok false))
    (herr : «matches» ev si rs = some (.error e)) :
    matchSignatures ev si filter.serviceRules = some (.error e) ∧
    (∀ pre pre' out rest, filter.Map ev pre = some (pre', .ok out) →
      filter.Map ev (pre ++ si :: rest) =
        some (pre' ++ si :: rest, .error e)) := by
  have hflat : (filter.serviceRules.map DiscoverySignatures.Signatures).flatten
      = pre0 ++ rs :: post := hsplit
  have hms : matchSignatures ev si filter.serviceRules = some (.error e) := by
    rw [matchSignatures_eq_flat, hflat]
    exact matchRulesets_first_error ev si pre0 post rs e hpre0 herr
  exact ⟨hms, fun pre pre' out rest h =>
    mapLoop_append_error ev filter.serviceRules pre pre' out si rest e h hms⟩

/-- Witness for C2: the second entity fails rule compilation; the whole call
returns the marshalling error and no output list. -/
theorem c2_fail_fast_witness :
    filterWithBad.Map sampleEvaluator [entRedis, entPostgres] =
      some ([setType entRedis "redis", entPostgres],
        .error "cannot marshal") :=
  (c2_fail_fast sampleEvaluator filterWithBad entPostgres [rulesetRedis] []
    rulesetBad "cannot marshal" rfl
    (fun r hr => by
      have hr2 : r = rulesetRedis := by simpa using hr
      subst hr2; rfl)
    rfl).2 [entRedis] [setType entRedis "redis"] [setType entRedis "redis"]
    [] rfl

/-- C10: in-place mutation of the input.  `Map` writes the matched type into
the input slice's own element: when a later entity `si` fails with an
error, the call returns that error, yet the final state of the input slice
keeps the prefix in its mutated form (`pre'`, the element-wise update where
every previously matched entity carries its newly assigned type) while `si`
and the tail are untouched; every output entry of the error-free prefix is
an entry of the mutated slice (output aliases input). -/
theorem c10_input_mutation (ev : Evaluator) (filter : RuleFilter)
    (pre pre' out rest : List Instance) (si : Instance) (e : GoError)
    (hpre : filter.Map ev pre = some (pre', .ok out))
    (herr : matchSignatures ev si filter.serviceRules = some (.error e)) :
    filter.Map ev (pre ++ si :: rest) =
      some (pre' ++ si :: rest, .error e) ∧
    pre' = pre.map (classifyElem ev filter.serviceRules) ∧
    ∀ x ∈ out, x ∈ pre' := by
  obtain ⟨h1, h2⟩ := mapLoop_ok_spec ev filter.serviceRules pre pre' out hpre
  refine ⟨mapLoop_append_error ev filter.serviceRules pre pre' out si rest e
    hpre herr, h1, ?_⟩
  intro x hx
  rw [h1, h2] at *
  exact (filterMap_pick_sublist ev filter.serviceRules pre).subset hx

/-- Witness for C10: after the error on the second entity, the first entity
keeps its newly assigned `redis` type in the returned input slice, which
therefore differs from the original input. -/
theorem c10_input_mutation_witness :
    filterWithBad.Map sampleEvaluator [entRedis, entPostgres] =
      some ([setType entRedis "redis", entPostgres],
        .error "cannot marshal") ∧
    [setType entRedis "redis"] =
      [entRedis].map (classifyElem sampleEvaluator
        filterWithBad.serviceRules) :=
  ⟨(c10_input_mutation sampleEvaluator filterWithBad [entRedis]
      [setType entRedis "redis"] [setType entRedis "redis"] [] entPostgres
      "cannot marshal" rfl rfl).1,
   (c10_input_mutation sampleEvaluator filterWithBad [entRedis]
      [setType entRedis "redis"] [setType entRedis "redis"] [] entPostgres
      "cannot marshal" rfl rfl).2.1⟩

/-- C9: idempotence.  Matching depends only on the entity's projected
attributes and the stored rulesets — in particular not on the mutable
`Service.Type` slot, so re-classifying an already annotated entity gives
the same outcome — and classifying two copies of the same entity in one
call yields the same result for both: either both are excluded, or both
receive the type of the same first-matching ruleset. -/
theorem c9_idempotent (ev : Evaluator) (filter : RuleFilter) (si : Instance)
    (t : String) :
    matchSignatures ev (setType si t) filter.serviceRules =
      matchSignatures ev si filter.serviceRules ∧
    (∀ sis' out, filter.Map ev [si, si] = some (sis', .ok out) →
      (sis' = [si, si] ∧ out = []) ∨
      (∃ rs, matchSignatures ev si filter.serviceRules =
          some (.ok (some rs)) ∧
        sis' = [setType si rs.«Type», setType si rs.«Type»] ∧
        out = [setType si rs.«Type», setType si rs.«Type»])) := by
  refine ⟨matchSignatures_setType ev si t filter.serviceRules, ?_⟩
  intro sis' out h
  obtain ⟨h1, h2⟩ := mapLoop_ok_spec ev filter.serviceRules [si, si] sis' out h
  cases hms : matchSignatures ev si filter.serviceRules with
  | none =>
    left
    subst h1 h2
    simp [classifyElem, pickElem, hms]
  | some r =>
    cases r with
    | error e =>
      left
      subst h1 h2
      simp [classifyElem, pickElem, hms]
    | ok o =>
      cases o with
      | none =>
        left
        subst h1 h2
        simp [classifyElem, pickElem, hms]
      | some rs =>
        right
        refine ⟨rs, rfl, ?_, ?_⟩ <;>
          (subst h1 h2; simp [classifyElem, pickElem, hms])

/-- Witness for C9: classification of a `redis:6` entity is unchanged by a
previously assigned type, and mapping two copies annotates both with the
same type. -/
theorem c9_idempotent_witness :
    matchSignatures sampleEvaluator (setType entRedis "x")
        filterRedis.serviceRules =
      matchSignatures sampleEvaluator entRedis filterRedis.serviceRules ∧
    (([setType entRedis "redis", setType entRedis "redis"] =
        ([entRedis, entRedis] : List Instance) ∧
      ([setType entRedis "redis", setType entRedis "redis"] :
        List Instance) = []) ∨
     (∃ rs, matchSignatures sampleEvaluator entRedis
          filterRedis.serviceRules = some (.ok (some rs)) ∧
        ([setType entRedis "redis", setType entRedis "redis"] :
          List Instance) =
          [setType entRedis rs.«Type», setType entRedis rs.«Type»] ∧
        ([setType entRedis "redis", setType entRedis "redis"] :
          List Instance) =
          [setType entRedis rs.«Type», setType entRedis rs.«Type»])) :=
  ⟨(c9_idempotent sampleEvaluator filterRedis entRedis "x").1,
   (c9_idempotent sampleEvaluator filterRedis entRedis "x").2
     [setType entRedis "redis", setType entRedis "redis"]
     [setType entRedis "redis", setType entRedis "redis"] rfl⟩

/-- C8: first-name access precondition.  The projection reads the first
configured name unconditionally: whenever the name list is non-empty the
access is in bounds and the projection is defined, and for an entity with
zero names the projection is undefined (`none`, modelling the Go panic) —
no fallback value is substituted. -/
theorem c8_first_name_access (si : Instance) :
    (si.Container.Names ≠ [] → (attributeMap si).isSome = true) ∧
    (si.Container.Names = [] → attributeMap si = none) := by
  constructor
  · intro h
    cases hn : si.Container.Names with
    | nil => exact absurd hn h
    | cons n ns => simp [attributeMap, hn]
  · intro h
    simp [attributeMap, h]

/-- Witness for C8: the projection succeeds on an entity with one name and
is undefined on an entity with no names. -/
theorem c8_first_name_access_witness :
    (attributeMap entRedis).isSome = true ∧ attributeMap entNoName = none :=
  ⟨(c8_first_name_access entRedis).1 (by decide),
   (c8_first_name_access entNoName).2 rfl⟩

/-- C6: label namespacing.  An entity-level label key `k` is projected
under the `ContainerLabel-` namespace and an endpoint-level label key under
the distinct `NetworkLabel-` namespace, so a key present in both collections
yields two distinct attributes, each holding its own collection's value
(last write wins inside one collection, as in a Go map, hence the
`reverse.lookup` reading on the label association lists). -/
theorem c6_label_namespacing (si : Instance) (m : AttrMap) (k v1 v2 : String)
    (hm : attributeMap si = some m)
    (h1 : si.Container.Labels.reverse.lookup k = some v1)
    (h2 : si.Port.Labels.reverse.lookup k = some v2) :
    ("ContainerLabel-" ++ k) ≠ ("NetworkLabel-" ++ k) ∧
    goMapGet m ("ContainerLabel-" ++ k) = some v1 ∧
    goMapGet m ("NetworkLabel-" ++ k) = some v2 := by
  cases hn : si.Container.Names with
  | nil => rw [attributeMap, hn] at hm; cases hm
  | cons n ns =>
    rw [attributeMap_eq si n ns hn] at hm
    injection hm with hm2
    subst hm2
    refine ⟨containerLabel_ne_networkLabel k k, ?_, ?_⟩
    · unfold goMapGet
      rw [lookup_append]
      have hnone : ((si.Port.Labels.map
          (fun p => ("NetworkLabel-" ++ p.1, p.2))).reverse).lookup
            ("ContainerLabel-" ++ k) = none := by
        apply lookup_eq_none_of_keys_ne
        intro p hp
        rw [List.mem_reverse] at hp
        obtain ⟨q, hq, hpq⟩ := List.mem_map.mp hp
        rw [← hpq]
        exact fun hc => containerLabel_ne_networkLabel k q.1 hc.symm
      rw [hnone, lookup_append, ← List.map_reverse, lookup_map_prefixed, h1]
      rfl
    · unfold goMapGet
      rw [lookup_append, ← List.map_reverse, lookup_map_prefixed, h2]
      rfl

/-- Witness for C6: the key `app` occurs in both label collections of
`entLabelled`; the projected map holds both namespaced attributes with
their respective values. -/
theorem c6_label_namespacing_witness :
    ("ContainerLabel-" ++ "app") ≠ ("NetworkLabel-" ++ "app") ∧
    goMapGet mLabelled ("ContainerLabel-" ++ "app") = some "backend" ∧
    goMapGet mLabelled ("NetworkLabel-" ++ "app") = some "edge" :=
  c6_label_namespacing entLabelled mLabelled "app" "backend" "edge"
    rfl rfl rfl

/-- Counterexample to C7 as stated: the claim lists nine fixed keys
(identity id, first name, image/origin, command, lifecycle state, endpoint
address, endpoint kind, public port, private port), but the projection of a
concrete label-free entity also defines the fixed key `ContainerPod`, which
is not among the nine — so the fixed keys are not exactly the claimed
ones. -/
theorem c7_fixed_keys_counterexample :
    goMapGet ((attributeMap entRedis).getD []) "ContainerPod" = some "pod0"
      ∧ "ContainerPod" ∉ specFixedKeys := by
  exact ⟨rfl, by decide⟩

/-- C7 (amended): the projected fixed (non-label) keys are exactly those
for identity id, first configured name, image/origin, pod, command,
lifecycle state, endpoint address, endpoint kind, public port and private
port — ten keys, with both port values rendered as decimal strings
(`Nat.repr`). -/
theorem c7_fixed_keys_amended (si : Instance) (n : String)
    (ns : List String) (hn : si.Container.Names = n :: ns)
    (hcl : si.Container.Labels = []) (hpl : si.Port.Labels = []) :
    attributeMap si = some
      [("ContainerID", si.Container.ID),
       ("ContainerName", n),
       ("ContainerImage", si.Container.Image),
       ("ContainerPod", si.Container.Pod),
       ("ContainerCommand", si.Container.Command),
       ("ContainerState", si.Container.State),
       ("NetworkIP", si.Port.IP),
       ("NetworkType", si.Port.«Type»),
       ("NetworkPublicPort", Nat.repr si.Port.PublicPort),
       ("NetworkPrivatePort", Nat.repr si.Port.PrivatePort)] := by
  rw [attributeMap_eq si n ns hn, hcl, hpl]
  rfl

/-- Witness for the amended C7: the ten fixed keys and values of a concrete
label-free entity, ports in decimal. -/
theorem c7_fixed_keys_amended_witness :
    attributeMap entRedis = some
      [("ContainerID", "id0"),
       ("ContainerName", "name0"),
       ("ContainerImage", "redis:6"),
       ("ContainerPod", "pod0"),
       ("ContainerCommand", "cmd0"),
       ("ContainerState", "running"),
       ("NetworkIP", "10.0.0.1"),
       ("NetworkType", "tcp"),
       ("NetworkPublicPort", "80"),
       ("NetworkPrivatePort", "6379")] :=
  c7_fixed_keys_amended entRedis "name0" [] rfl rfl rfl

/-- C5: construction fails atomically.  With the plugin wrapper built, an
empty `servicesfiles` list fails construction with the configuration-missing
error; a failing source (unreadable or undecodable) fails construction with
an error and no classifier; and a classifier is produced only when every
configured source loads, its rule sources being the loaded values in
configured order. -/
theorem c5_construction_atomic (env : PluginHost) :
    (env.newPlugin = .ok () → env.servicesFiles = [] →
      NewRuleFilter env = .error "servicesFiles configuration value missing")
      ∧
    (∀ f e, f ∈ env.servicesFiles → loadServiceSignatures env f = .error e →
      ∃ e2, NewRuleFilter env = .error e2) ∧
    (∀ filter, NewRuleFilter env = .ok filter →
      List.Forall₂ (fun f sig => loadServiceSignatures env f = .ok sig)
        env.servicesFiles filter.serviceRules) := by
  refine ⟨?_, ?_, ?_⟩
  · intro hp hempty
    simp [NewRuleFilter, hp, hempty]
  · intro f e hmem herr
    cases hp : env.newPlugin with
    | error e0 => exact ⟨e0, by simp [NewRuleFilter, hp]⟩
    | ok u =>
      have hne : ¬ env.servicesFiles.length = 0 := by
        intro h0
        rw [List.length_eq_zero] at h0
        rw [h0] at hmem
        cases hmem
      obtain ⟨e2, h2⟩ := loadAll_error_of_mem env env.servicesFiles f e
        hmem herr
      exact ⟨e2, by simp [NewRuleFilter, hp, hne, h2]⟩
  · intro filter hok
    cases hp : env.newPlugin with
    | error e0 => rw [NewRuleFilter, hp] at hok; cases hok
    | ok u =>
      rw [NewRuleFilter, hp] at hok
      by_cases hlen : env.servicesFiles.length = 0
      · simp [hlen] at hok
      · simp only [hlen, if_false] at hok
        cases hload : loadAll env env.servicesFiles with
        | error e => rw [hload] at hok; cases hok
        | ok sigs =>
          rw [hload] at hok
          injection hok with hok2
          rw [← hok2]
          exact loadAll_ok_forall env env.servicesFiles sigs hload

/-- Witness for C5: an empty configuration list is rejected, an unreadable
source aborts construction, and a host whose one source loads yields a
classifier holding exactly that source. -/
theorem c5_construction_atomic_witness :
    NewRuleFilter emptyHost =
      .error "servicesFiles configuration value missing" ∧
    (∃ e2, NewRuleFilter badHost = .error e2) ∧
    List.Forall₂
      (fun f sig => loadServiceSignatures goodHost f = .ok sig)
      goodHost.servicesFiles
      (RuleFilter.serviceRules ⟨[⟨"fileA", [rulesetRedis]⟩]⟩) :=
  ⟨(c5_construction_atomic emptyHost).1 rfl rfl,
   (c5_construction_atomic badHost).2.1 "a.json" "no such file"
     (List.mem_singleton.mpr rfl) rfl,
   (c5_construction_atomic goodHost).2.2 ⟨[⟨"fileA", [rulesetRedis]⟩]⟩ rfl⟩

end ServicesFilter
